import Mathlib

/-!
Verification of the security policy-decision engine behind the PI
Security / Security2 architectural protocols (`src/protocols/security.rs`,
`src/protocols/security2.rs`).

The repository's source files declare the ABI surface (GUIDs, function
pointer types) and document the decision contract in their doc comments;
the decision engine itself (the two authentication gates and the
deferred-image ledger) is specified in `spec.md` sections 3-4 and 7-8.
The definitions below embed that engine shallowly: device paths,
authentication statuses and image bytes are opaque naturals, the ledger
is an association list keyed by `LedgerKey`, and platform policy (the
mapping from authentication inputs to verdicts, which the spec leaves as
configuration) is a parameter record.
-/

namespace Security

/-- Modelled from the spec: a `DevicePath` is an opaque comparable key
(spec.md section 3); the source (`security.rs`) only forwards a raw pointer. -/
abbrev DevicePath := Nat

/-- Modelled from the spec: an opaque bitfield produced by an upstream
extraction step (spec.md section 3); the source passes it as `u32`. -/
abbrev AuthenticationStatus := Nat

/-- Modelled from the spec: an optional byte sequence plus length owned by
the caller (spec.md section 3); the length is the byte list's length. -/
structure ImageBuffer where
  bytes : List Nat
  deriving DecidableEq, Repr

/-- `boot_policy` flag of the extended gate (`security2.rs` line 71). -/
abbrev BootPolicy := Bool

/-- Modelled from the spec: the trust verdict sum type `{Allow, Deny, Defer}`
(spec.md section 3). -/
inductive TrustVerdict
  | Allow
  | Deny
  | Defer
  deriving DecidableEq, Repr

/-- Which gate recorded a ledger entry (spec.md section 4.2: the deferred
sets of the two gates "are tagged by originating gate"). -/
inductive GateTag
  | legacy
  | extended
  deriving DecidableEq, Repr

/-- Modelled from the spec: a ledger key is either a device path or, when the
extended gate is given a buffer without a device path, a content-derived
identity copied out of the buffer (spec.md sections 3 and 4.2 case 2). -/
inductive LedgerKey
  | device (dp : DevicePath)
  | content (id : List Nat)
  deriving DecidableEq, Repr

/-- Modelled from the spec: a `LedgerEntry` holds the deferred marker and
enough context (boot policy, recording gate) to support later promotion
(spec.md section 3). The legacy gate has no boot-policy argument, so its
entries carry `none` there. -/
structure LedgerEntry where
  key : LedgerKey
  deferred : Bool
  gate : GateTag
  bootPolicy : Option BootPolicy
  deriving DecidableEq, Repr

/-- Modelled from the spec: the deferred/untrusted image ledger, boot-session
state shared by both gates (spec.md section 4.3). -/
abbrev Ledger := List LedgerEntry

/-- Modelled from the spec: the malformed-call error class of spec.md
section 7 (`InvalidInput`). -/
inductive GateError
  | invalidInput
  deriving DecidableEq, Repr

/-- Modelled from the spec: the ledger bookkeeping error (spec.md
section 4.3: `promote` fails with `NotFound` on an unrecorded key). -/
inductive LedgerError
  | notFound
  deriving DecidableEq, Repr

/-- `query(key)`: read-only lookup of the first entry for a key
(spec.md section 4.3). -/
def query (l : Ledger) (k : LedgerKey) : Option LedgerEntry :=
  l.find? (fun e => e.key == k)

/-- A key is in the deferred state when its ledger entry carries the
deferred marker. -/
def isDeferred (l : Ledger) (k : LedgerKey) : Bool :=
  match query l k with
  | some e => e.deferred
  | none => false

/-- `record(key, context)`: idempotent insert-or-update — recording a key
that is already present replaces that entry's context instead of creating
a duplicate (spec.md section 4.3). -/
def record : Ledger → LedgerEntry → Ledger
  | [], e => [e]
  | x :: xs, e => if x.key = e.key then e :: xs else x :: record xs e

/-- Auxiliary recursion for `promote`: clear the deferred marker on the
entry for `k`, or report that no entry exists. -/
def promoteEntry : Ledger → LedgerKey → Option Ledger
  | [], _ => none
  | x :: xs, k =>
    if x.key = k then some ({ x with deferred := false } :: xs)
    else (promoteEntry xs k).map (fun ys => x :: ys)

/-- `promote(key)`: fails with `NotFound` if the key was never recorded,
otherwise clears the deferred marking (spec.md section 4.3). -/
def promote (l : Ledger) (k : LedgerKey) : Except LedgerError Ledger :=
  match promoteEntry l k with
  | some l2 => Except.ok l2
  | none => Except.error LedgerError.notFound

/-- Modelled from the spec: the tri-state integrity result returned by the
external verification/measurement collaborator (spec.md section 4.2 case 1
and section 6). -/
inductive VerifyResult
  | pass
  | fail
  | indeterminate
  deriving DecidableEq, Repr

/-- Modelled from the spec: the platform-policy configuration points that
spec.md explicitly leaves out of core logic — the legacy status-to-verdict
mapping (section 4.1), the verification collaborator (section 4.2 case 1;
it does not consume the boot-policy flag, which is forwarded only for
attestation-log context, section 3), and the driver-start permission check
(section 4.2 case 3). -/
structure PlatformPolicy where
  legacyVerdict : AuthenticationStatus → TrustVerdict
  verify : Option DevicePath → ImageBuffer → VerifyResult
  startPermitted : DevicePath → Bool

/-- Shared gate core: an evaluation of key `k` first consults the ledger —
a key quarantined as deferred stays `Defer` and its entry context is
refreshed (spec.md section 3 invariant, section 4.3 idempotent `record`) —
and otherwise resolves the fresh policy verdict, recording a `LedgerEntry`
exactly when that verdict is `Defer` (spec.md sections 4.1 and 4.2). -/
def gateCore (l : Ledger) (k : LedgerKey) (tag : GateTag)
    (bp : Option BootPolicy) (fresh : TrustVerdict) : TrustVerdict × Ledger :=
  if isDeferred l k then
    (TrustVerdict.Defer, record l ⟨k, true, tag, bp⟩)
  else
    match fresh with
    | TrustVerdict.Allow => (TrustVerdict.Allow, l)
    | TrustVerdict.Deny => (TrustVerdict.Deny, l)
    | TrustVerdict.Defer => (TrustVerdict.Defer, record l ⟨k, true, tag, bp⟩)

/-- Modelled from the spec: `evaluate_legacy` (spec.md section 4.1; the
source `security.rs` lines 66-103 documents the same contract as return
statuses). Absent device path is always `InvalidInput`; otherwise platform
policy maps the authentication status to a verdict, recording deferral. -/
def evaluate_legacy (pol : PlatformPolicy) (l : Ledger)
    (device_path : Option DevicePath) (auth : AuthenticationStatus) :
    Except GateError (TrustVerdict × Ledger) :=
  match device_path with
  | none => Except.error GateError.invalidInput
  | some dp =>
    Except.ok (gateCore l (LedgerKey.device dp) GateTag.legacy none
      (pol.legacyVerdict auth))

/-- The ledger key used by the extended gate: the device path when present,
else a content identity copied out of the buffer (spec.md section 4.2
cases 1-2); no key exists when both inputs are absent (case 4). -/
def extendedKey (device_path : Option DevicePath) (buffer : Option ImageBuffer) :
    Option LedgerKey :=
  match device_path, buffer with
  | some dp, _ => some (LedgerKey.device dp)
  | none, some b => some (LedgerKey.content b.bytes)
  | none, none => none

/-- Fresh (ledger-independent) verdict of the extended gate: with a buffer,
collaborator verification maps pass/fail/indeterminate to
Allow/Deny/Defer (spec.md section 4.2 cases 1-2); without a buffer it is a
connection/authorization check yielding Allow or Defer only (case 3). The
final branch is unreachable: both inputs absent is rejected before this
function is consulted (case 4). -/
def extendedFresh (pol : PlatformPolicy) (device_path : Option DevicePath) :
    Option ImageBuffer → TrustVerdict
  | some b =>
    match pol.verify device_path b with
    | VerifyResult.pass => TrustVerdict.Allow
    | VerifyResult.fail => TrustVerdict.Deny
    | VerifyResult.indeterminate => TrustVerdict.Defer
  | none =>
    match device_path with
    | some dp =>
      if pol.startPermitted dp then TrustVerdict.Allow else TrustVerdict.Defer
    | none => TrustVerdict.Defer

/-- Modelled from the spec: `evaluate_extended` (spec.md section 4.2; the
source `security2.rs` lines 26-72 documents the same contract as return
statuses). Both inputs absent is `InvalidInput`; otherwise the gate core
runs on the derived key with the extended tag and the boot-policy flag
recorded as context. -/
def evaluate_extended (pol : PlatformPolicy) (l : Ledger)
    (device_path : Option DevicePath) (buffer : Option ImageBuffer)
    (boot_policy : BootPolicy) :
    Except GateError (TrustVerdict × Ledger) :=
  match extendedKey device_path buffer with
  | none => Except.error GateError.invalidInput
  | some k =>
    Except.ok (gateCore l k GateTag.extended (some boot_policy)
      (extendedFresh pol device_path buffer))

/-- A concrete platform policy used to witness the theorems on explicit
inputs: status 0 authenticates, status 1 is zero-tolerance, anything else
is deferred; an empty buffer verifies indeterminate, a buffer starting
with 1 fails, others pass; even device paths are start-permitted. -/
def samplePolicy : PlatformPolicy where
  legacyVerdict a :=
    if a = 0 then TrustVerdict.Allow
    else if a = 1 then TrustVerdict.Deny
    else TrustVerdict.Defer
  verify _ b :=
    match b.bytes with
    | [] => VerifyResult.indeterminate
    | c :: _ => if c = 1 then VerifyResult.fail else VerifyResult.pass
  startPermitted dp := dp % 2 = 0

/-- Number of ledger entries held for a key. -/
def countKey (l : Ledger) (k : LedgerKey) : Nat :=
  l.countP (fun e => e.key == k)

/-- One dispatcher-visible operation on the engine: a call into either gate
or an explicit promotion by the disposition agent (spec.md sections 2
and 6). -/
inductive Op
  | evalLegacy (device_path : Option DevicePath) (auth : AuthenticationStatus)
  | evalExtended (device_path : Option DevicePath) (buffer : Option ImageBuffer)
      (boot_policy : BootPolicy)
  | promoteOp (k : LedgerKey)
  deriving DecidableEq, Repr

/-- Dispatcher-visible outcome of one operation. -/
inductive Outcome
  | verdict (v : TrustVerdict)
  | invalid
  | promoted
  | notFound
  deriving DecidableEq, Repr

/-- `Op.isEval` holds on gate calls, not on promotions. -/
def Op.isEval : Op → Bool
  | Op.promoteOp _ => false
  | _ => true

/-- The ledger key an operation concerns, when one exists. -/
def opKey : Op → Option LedgerKey
  | Op.evalLegacy dp _ => dp.map LedgerKey.device
  | Op.evalExtended dp buf _ => extendedKey dp buf
  | Op.promoteOp k => some k

/-- One step of the engine: run an operation against the ledger, returning
the mutated ledger and the outcome. A failed call leaves the ledger
untouched (spec.md section 7: errors are surfaced, never defaulted). -/
def step (pol : PlatformPolicy) (l : Ledger) : Op → Ledger × Outcome
  | Op.evalLegacy dp auth =>
    match evaluate_legacy pol l dp auth with
    | Except.ok (v, l2) => (l2, Outcome.verdict v)
    | Except.error _ => (l, Outcome.invalid)
  | Op.evalExtended dp buf bp =>
    match evaluate_extended pol l dp buf bp with
    | Except.ok (v, l2) => (l2, Outcome.verdict v)
    | Except.error _ => (l, Outcome.invalid)
  | Op.promoteOp k =>
    match promote l k with
    | Except.ok l2 => (l2, Outcome.promoted)
    | Except.error _ => (l, Outcome.notFound)

/-- `allowsKey pol l k ops` holds when some operation along the trace `ops`
run from ledger `l` is a gate evaluation of key `k` that returns `Allow`. -/
def allowsKey (pol : PlatformPolicy) (l : Ledger) (k : LedgerKey) :
    List Op → Bool
  | [] => false
  | op :: rest =>
    ((opKey op == some k) && ((step pol l op).2 == Outcome.verdict TrustVerdict.Allow))
    || allowsKey pol (step pol l op).1 k rest

/-! ## EFI status encoding

The source files document their results as `efi::Status` codes. The
numeric values come from the UEFI specification via the external `r_efi`
crate (not part of this repository): an error status sets the high bit of
a 64-bit word. -/

/-- `efi::Status::SUCCESS`. -/
def EFI_SUCCESS : Nat := 0

/-- Modelled from the spec: `efi::Status::INVALID_PARAMETER`, UEFI error 2
(the `r_efi` status values are outside this repository). -/
def EFI_INVALID_PARAMETER : Nat := 2 ^ 63 + 2

/-- Modelled from the spec: `efi::Status::ACCESS_DENIED`, UEFI error 15. -/
def EFI_ACCESS_DENIED : Nat := 2 ^ 63 + 15

/-- Modelled from the spec: `efi::Status::SECURITY_VIOLATION`, UEFI
error 26. -/
def EFI_SECURITY_VIOLATION : Nat := 2 ^ 63 + 26

/-- The status encoding documented for the legacy gate in `security.rs`
lines 88-98: `Success` for a usable file, `AccessDenied` for a file unusable
under any circumstances, `SecurityViolation` for the untrusted/promotable
state, `InvalidParameter` when `file` is absent. -/
def legacy_status_encoding : Except GateError TrustVerdict → Nat
  | Except.ok TrustVerdict.Allow => EFI_SUCCESS
  | Except.ok TrustVerdict.Deny => EFI_ACCESS_DENIED
  | Except.ok TrustVerdict.Defer => EFI_SECURITY_VIOLATION
  | Except.error GateError.invalidInput => EFI_INVALID_PARAMETER

/-- The status encoding documented for the extended gate in `security2.rs`
lines 48-65 (`SUCCESS` / `ACCESS_DENIED` / `SECURITY_VIOLATION`), together
with the malformed-call error of spec.md sections 4.2 case 4 and 7 encoded
as `INVALID_PARAMETER`. -/
def extended_status_encoding : Except GateError TrustVerdict → Nat
  | Except.ok TrustVerdict.Allow => EFI_SUCCESS
  | Except.ok TrustVerdict.Deny => EFI_ACCESS_DENIED
  | Except.ok TrustVerdict.Defer => EFI_SECURITY_VIOLATION
  | Except.error GateError.invalidInput => EFI_INVALID_PARAMETER

/-- The seven documented outcome conditions of the extended gate, one per
return-value bullet of `security2.rs` lines 50-65, in order. -/
inductive Security2Condition
  | pathAndBufferAuthenticated
  | bufferOnlyAuthenticated
  | nullBufferStartPermitted
  | authFailedUntrusted
  | authFailedDenied
  | nullBufferNoStartPermission
  | bufferNoLoadPermission
  deriving DecidableEq, Repr

/-- The status documented for each extended-gate condition in
`security2.rs` lines 50-65. -/
def security2_documented_status : Security2Condition → Nat
  | Security2Condition.pathAndBufferAuthenticated => EFI_SUCCESS
  | Security2Condition.bufferOnlyAuthenticated => EFI_SUCCESS
  | Security2Condition.nullBufferStartPermitted => EFI_SUCCESS
  | Security2Condition.authFailedUntrusted => EFI_SECURITY_VIOLATION
  | Security2Condition.authFailedDenied => EFI_ACCESS_DENIED
  | Security2Condition.nullBufferNoStartPermission => EFI_SECURITY_VIOLATION
  | Security2Condition.bufferNoLoadPermission => EFI_SECURITY_VIOLATION

/-- Which bookkeeping list each extended-gate condition adds the image to,
per `security2.rs`: `authFailedUntrusted` adds it to the file execution
table (lines 57-59), `bufferNoLoadPermission` adds it to the deferred
images list (lines 64-65), the rest add it nowhere. -/
inductive BookkeepingEffect
  | noEffect
  | fileExecutionTable
  | deferredImageList
  deriving DecidableEq, Repr

/-- Bookkeeping documented per condition in `security2.rs` lines 50-65. -/
def security2_documented_bookkeeping : Security2Condition → BookkeepingEffect
  | Security2Condition.authFailedUntrusted => BookkeepingEffect.fileExecutionTable
  | Security2Condition.bufferNoLoadPermission => BookkeepingEffect.deferredImageList
  | _ => BookkeepingEffect.noEffect

/-! ## Ledger lemmas -/

theorem query_record_self (l : Ledger) (e : LedgerEntry) :
    query (record l e) e.key = some e := by
  induction l with
  | nil => simp [record, query, List.find?]
  | cons x xs ih =>
    rw [record]
    by_cases h : x.key = e.key
    · simp [h, query, List.find?]
    · rw [if_neg h]
      have hx : (x.key == e.key) = false := by simp [h]
      simpa [query, List.find?, hx] using ih

theorem query_record_ne (l : Ledger) (e : LedgerEntry) (k : LedgerKey)
    (h : k ≠ e.key) : query (record l e) k = query l k := by
  have he : (e.key == k) = false := by simp [Ne.symm h]
  induction l with
  | nil => simp [record, query, List.find?, he]
  | cons x xs ih =>
    rw [record]
    by_cases hx : x.key = e.key
    · have hxk : (x.key == k) = false := by simp [hx, Ne.symm h]
      simp [hx, query, List.find?, he, hxk]
    · rw [if_neg hx]
      by_cases hk : x.key = k
      · simp [query, List.find?, hk]
      · have hxk : (x.key == k) = false := by simp [hk]
        simpa [query, List.find?, hxk] using ih

theorem countKey_record_self (l : Ledger) (e : LedgerEntry) :
    countKey (record l e) e.key = max 1 (countKey l e.key) := by
  induction l with
  | nil => simp [record, countKey]
  | cons x xs ih =>
    rw [record]
    by_cases h : x.key = e.key
    · have hx : (x.key == e.key) = true := by simp [h]
      simp only [if_pos h, countKey, List.countP_cons, hx, beq_self_eq_true,
        if_true]
      omega
    · rw [if_neg h]
      have hx : (x.key == e.key) = false := by simp [h]
      simp only [countKey, List.countP_cons, hx] at ih ⊢
      simpa using ih

theorem countKey_record_ne (l : Ledger) (e : LedgerEntry) (k : LedgerKey)
    (h : k ≠ e.key) : countKey (record l e) k = countKey l k := by
  have he : (e.key == k) = false := by simp [Ne.symm h]
  induction l with
  | nil => simp [record, countKey, he]
  | cons x xs ih =>
    rw [record]
    by_cases hx : x.key = e.key
    · have hxk : (x.key == k) = false := by simp [hx, Ne.symm h]
      simp [hx, countKey, List.countP_cons, he, hxk]
    · rw [if_neg hx]
      simp only [countKey, List.countP_cons] at ih ⊢
      omega

theorem countKey_record_le (l : Ledger) (e : LedgerEntry) (k : LedgerKey)
    (h : countKey l k ≤ 1) : countKey (record l e) k ≤ 1 := by
  by_cases hk : k = e.key
  · subst hk
    rw [countKey_record_self]
    exact Nat.max_le.2 ⟨Nat.le_refl 1, h⟩
  · rw [countKey_record_ne l e k hk]
    exact h

theorem promoteEntry_none_iff (l : Ledger) (k : LedgerKey) :
    promoteEntry l k = none ↔ query l k = none := by
  induction l with
  | nil => simp [promoteEntry, query, List.find?]
  | cons x xs ih =>
    by_cases hx : x.key = k
    · have hb : (x.key == k) = true := by simp [hx]
      simp [promoteEntry, hx, query, List.find?, hb]
    · have hb : (x.key == k) = false := by simp [hx]
      simp only [promoteEntry, if_neg hx, Option.map_eq_none', query, List.find?, hb]
      simpa [query] using ih

theorem query_promoteEntry (l l2 : Ledger) (k : LedgerKey)
    (h : promoteEntry l k = some l2) :
    ∃ e, query l k = some e ∧ query l2 k = some { e with deferred := false } := by
  induction l generalizing l2 with
  | nil => simp [promoteEntry] at h
  | cons x xs ih =>
    by_cases hx : x.key = k
    · rw [promoteEntry, if_pos hx] at h
      injection h with h
      subst h
      have hb : (x.key == k) = true := by simp [hx]
      exact ⟨x, by simp [query, List.find?, hb], by simp [query, List.find?, hb]⟩
    · rw [promoteEntry, if_neg hx] at h
      rcases Option.map_eq_some'.1 h with ⟨ys, hys, hcons⟩
      subst hcons
      have hb : (x.key == k) = false := by simp [hx]
      rcases ih ys hys with ⟨e, hq, hq2⟩
      exact ⟨e, by simpa [query, List.find?, hb] using hq,
        by simpa [query, List.find?, hb] using hq2⟩

theorem query_promoteEntry_ne (l l2 : Ledger) (k k2 : LedgerKey)
    (h : promoteEntry l k = some l2) (hne : k2 ≠ k) :
    query l2 k2 = query l k2 := by
  induction l generalizing l2 with
  | nil => simp [promoteEntry] at h
  | cons x xs ih =>
    by_cases hx : x.key = k
    · rw [promoteEntry, if_pos hx] at h
      injection h with h
      subst h
      have hb : (x.key == k2) = false := by
        simp only [beq_eq_false_iff_ne]
        intro hc
        exact hne (by rw [← hc, hx])
      simp [query, List.find?, hb]
    · rw [promoteEntry, if_neg hx] at h
      rcases Option.map_eq_some'.1 h with ⟨ys, hys, hcons⟩
      subst hcons
      by_cases hk2 : x.key = k2
      · have hb : (x.key == k2) = true := by simp [hk2]
        simp [query, List.find?, hb]
      · have hb : (x.key == k2) = false := by simp [hk2]
        simpa [query, List.find?, hb] using ih ys hys

theorem isDeferred_record_self (l : Ledger) (e : LedgerEntry)
    (he : e.deferred = true) : isDeferred (record l e) e.key = true := by
  unfold isDeferred
  rw [query_record_self]
  exact he

theorem isDeferred_record (l : Ledger) (e : LedgerEntry) (k : LedgerKey)
    (he : e.deferred = true) (h : isDeferred l k = true) :
    isDeferred (record l e) k = true := by
  by_cases hk : k = e.key
  · subst hk
    exact isDeferred_record_self l e he
  · unfold isDeferred at h ⊢
    rw [query_record_ne l e k hk]
    exact h

/-! ## Gate-core lemmas -/

theorem gateCore_fst (l : Ledger) (k : LedgerKey) (tag : GateTag)
    (bp : Option BootPolicy) (f : TrustVerdict) :
    (gateCore l k tag bp f).1 = f ∨ (gateCore l k tag bp f).1 = TrustVerdict.Defer := by
  unfold gateCore
  by_cases hd : isDeferred l k = true
  · simp [hd]
  · simp only [hd, if_false, Bool.false_eq_true, ite_false]
    cases f <;> simp

theorem gateCore_snd (l : Ledger) (k : LedgerKey) (tag : GateTag)
    (bp : Option BootPolicy) (f : TrustVerdict) :
    (gateCore l k tag bp f).2 = l
    ∨ (gateCore l k tag bp f).2 = record l ⟨k, true, tag, bp⟩ := by
  unfold gateCore
  by_cases hd : isDeferred l k = true
  · simp [hd]
  · simp only [hd, Bool.false_eq_true, ite_false]
    cases f <;> simp

theorem gateCore_deferred_fst (l : Ledger) (k : LedgerKey) (tag : GateTag)
    (bp : Option BootPolicy) (f : TrustVerdict) (hd : isDeferred l k = true) :
    (gateCore l k tag bp f).1 = TrustVerdict.Defer := by
  unfold gateCore
  simp [hd]

theorem gateCore_defer_query (l : Ledger) (k : LedgerKey) (tag : GateTag)
    (bp : Option BootPolicy) (f : TrustVerdict)
    (h : (gateCore l k tag bp f).1 = TrustVerdict.Defer) :
    query (gateCore l k tag bp f).2 k = some ⟨k, true, tag, bp⟩ := by
  unfold gateCore at h ⊢
  by_cases hd : isDeferred l k = true
  · simpa [hd] using query_record_self l ⟨k, true, tag, bp⟩
  · simp only [hd, Bool.false_eq_true, ite_false] at h ⊢
    cases f with
    | Allow => simp at h
    | Deny => simp at h
    | Defer => simpa using query_record_self l ⟨k, true, tag, bp⟩

theorem gateCore_fst_bp (l : Ledger) (k : LedgerKey) (tag : GateTag)
    (bp bp2 : Option BootPolicy) (f : TrustVerdict) :
    (gateCore l k tag bp f).1 = (gateCore l k tag bp2 f).1 := by
  unfold gateCore
  by_cases hd : isDeferred l k = true
  · simp [hd]
  · simp only [hd, Bool.false_eq_true, ite_false]
    cases f <;> simp

theorem gateCore_idem_fst (l : Ledger) (k : LedgerKey) (tag : GateTag)
    (bp : Option BootPolicy) (f : TrustVerdict) :
    (gateCore (gateCore l k tag bp f).2 k tag bp f).1 = (gateCore l k tag bp f).1 := by
  have h2 : isDeferred (record l ⟨k, true, tag, bp⟩) k = true :=
    isDeferred_record_self l ⟨k, true, tag, bp⟩ rfl
  by_cases hd : isDeferred l k = true
  · simp [gateCore, hd, h2]
  · cases f with
    | Allow => simp [gateCore, hd]
    | Deny => simp [gateCore, hd]
    | Defer => simp [gateCore, hd, h2]

theorem countKey_gateCore (l : Ledger) (k : LedgerKey) (tag : GateTag)
    (bp : Option BootPolicy) (f : TrustVerdict) (k2 : LedgerKey)
    (h : countKey l k2 ≤ 1) : countKey (gateCore l k tag bp f).2 k2 ≤ 1 := by
  rcases gateCore_snd l k tag bp f with h2 | h2 <;> rw [h2]
  · exact h
  · exact countKey_record_le l _ k2 h

theorem isDeferred_gateCore (l : Ledger) (k : LedgerKey) (tag : GateTag)
    (bp : Option BootPolicy) (f : TrustVerdict) (K : LedgerKey)
    (h : isDeferred l K = true) : isDeferred (gateCore l k tag bp f).2 K = true := by
  rcases gateCore_snd l k tag bp f with h2 | h2 <;> rw [h2]
  · exact h
  · exact isDeferred_record l _ K rfl h

/-! ## Step lemmas -/

theorem step_evalLegacy_none (pol : PlatformPolicy) (l : Ledger)
    (auth : AuthenticationStatus) :
    step pol l (Op.evalLegacy none auth) = (l, Outcome.invalid) := rfl

theorem step_evalLegacy_some (pol : PlatformPolicy) (l : Ledger)
    (dp : DevicePath) (auth : AuthenticationStatus) :
    step pol l (Op.evalLegacy (some dp) auth)
      = ((gateCore l (LedgerKey.device dp) GateTag.legacy none
            (pol.legacyVerdict auth)).2,
         Outcome.verdict (gateCore l (LedgerKey.device dp) GateTag.legacy none
            (pol.legacyVerdict auth)).1) := rfl

theorem step_evalExtended_none (pol : PlatformPolicy) (l : Ledger)
    (dp : Option DevicePath) (buf : Option ImageBuffer) (bp : BootPolicy)
    (h : extendedKey dp buf = none) :
    step pol l (Op.evalExtended dp buf bp) = (l, Outcome.invalid) := by
  simp [step, evaluate_extended, h]

theorem step_evalExtended_some (pol : PlatformPolicy) (l : Ledger)
    (dp : Option DevicePath) (buf : Option ImageBuffer) (bp : BootPolicy)
    (k : LedgerKey) (h : extendedKey dp buf = some k) :
    step pol l (Op.evalExtended dp buf bp)
      = ((gateCore l k GateTag.extended (some bp) (extendedFresh pol dp buf)).2,
         Outcome.verdict (gateCore l k GateTag.extended (some bp)
            (extendedFresh pol dp buf)).1) := by
  simp [step, evaluate_extended, h]

theorem step_promote_some (pol : PlatformPolicy) (l : Ledger) (k : LedgerKey)
    (l2 : Ledger) (h : promoteEntry l k = some l2) :
    step pol l (Op.promoteOp k) = (l2, Outcome.promoted) := by
  simp [step, promote, h]

theorem step_promote_none (pol : PlatformPolicy) (l : Ledger) (k : LedgerKey)
    (h : promoteEntry l k = none) :
    step pol l (Op.promoteOp k) = (l, Outcome.notFound) := by
  simp [step, promote, h]

theorem step_preserves_deferred (pol : PlatformPolicy) (l : Ledger)
    (K : LedgerKey) (op : Op) (hd : isDeferred l K = true)
    (hop : ∀ k2, op = Op.promoteOp k2 → k2 ≠ K) :
    isDeferred (step pol l op).1 K = true := by
  cases op with
  | evalLegacy dp auth =>
    cases dp with
    | none => rw [step_evalLegacy_none]; exact hd
    | some dp =>
      rw [step_evalLegacy_some]
      exact isDeferred_gateCore l _ _ _ _ K hd
  | evalExtended dp buf bp =>
    cases hk : extendedKey dp buf with
    | none => rw [step_evalExtended_none pol l dp buf bp hk]; exact hd
    | some k =>
      rw [step_evalExtended_some pol l dp buf bp k hk]
      exact isDeferred_gateCore l _ _ _ _ K hd
  | promoteOp k2 =>
    have hne : k2 ≠ K := hop k2 rfl
    cases hp : promoteEntry l k2 with
    | none => rw [step_promote_none pol l k2 hp]; exact hd
    | some l2 =>
      rw [step_promote_some pol l k2 l2 hp]
      unfold isDeferred at hd ⊢
      rw [query_promoteEntry_ne l l2 k2 K hp (fun hc => hne hc.symm)]
      exact hd

theorem step_deferred_no_allow (pol : PlatformPolicy) (l : Ledger)
    (K : LedgerKey) (op : Op) (hd : isDeferred l K = true)
    (hk : opKey op = some K) :
    (step pol l op).2 ≠ Outcome.verdict TrustVerdict.Allow := by
  cases op with
  | evalLegacy dp auth =>
    cases dp with
    | none => simp [opKey] at hk
    | some dp =>
      simp only [opKey, Option.map_some', Option.some.injEq] at hk
      subst hk
      rw [step_evalLegacy_some]
      rw [gateCore_deferred_fst l _ _ _ _ hd]
      simp
  | evalExtended dp buf bp =>
    have hk2 : extendedKey dp buf = some K := hk
    rw [step_evalExtended_some pol l dp buf bp K hk2]
    rw [gateCore_deferred_fst l _ _ _ _ hd]
    simp
  | promoteOp k2 =>
    cases hp : promoteEntry l k2 with
    | none => rw [step_promote_none pol l k2 hp]; simp
    | some l2 => rw [step_promote_some pol l k2 l2 hp]; simp

/-! ## Auxiliary facts used by the claim theorems -/

theorem trustVerdict_cases (v : TrustVerdict) :
    v = TrustVerdict.Allow ∨ v = TrustVerdict.Deny ∨ v = TrustVerdict.Defer := by
  cases v
  · exact Or.inl rfl
  · exact Or.inr (Or.inl rfl)
  · exact Or.inr (Or.inr rfl)

theorem extendedFresh_no_buffer (pol : PlatformPolicy) (dp : Option DevicePath) :
    extendedFresh pol dp none = TrustVerdict.Allow
    ∨ extendedFresh pol dp none = TrustVerdict.Defer := by
  cases dp with
  | none => exact Or.inr rfl
  | some d =>
    unfold extendedFresh
    by_cases h : pol.startPermitted d = true
    · exact Or.inl (by simp [h])
    · exact Or.inr (by simp [h])

/-- Dispatcher-visible verdict of a gate result, when the call succeeded. -/
def verdictOf : Except GateError (TrustVerdict × Ledger) → Option TrustVerdict
  | Except.ok (v, _) => some v
  | Except.error _ => none

/-! ## Claim theorems -/

/-- C1: a key held as deferred in the Ledger is never returned `Allow` by
either gate along any trace of gate calls and promotions that contains no
explicit promotion of that key (spec.md section 3 invariant). -/
theorem deferred_never_allowed_without_promotion (pol : PlatformPolicy)
    (l : Ledger) (K : LedgerKey) (ops : List Op)
    (hd : isDeferred l K = true) (hnp : Op.promoteOp K ∉ ops) :
    allowsKey pol l K ops = false := by
  induction ops generalizing l with
  | nil => rfl
  | cons op rest ih =>
    rw [List.mem_cons] at hnp
    push_neg at hnp
    obtain ⟨hnp1, hnp2⟩ := hnp
    have hop : ∀ k2, op = Op.promoteOp k2 → k2 ≠ K := by
      intro k2 h2 hK
      subst hK
      exact hnp1 h2.symm
    have h1 : ((opKey op == some K)
        && ((step pol l op).2 == Outcome.verdict TrustVerdict.Allow)) = false := by
      cases hkq : (opKey op == some K) with
      | false => rfl
      | true =>
        have hkeq : opKey op = some K := eq_of_beq hkq
        have hna := step_deferred_no_allow pol l K op hd hkeq
        simp only [Bool.true_and]
        exact beq_eq_false_iff_ne.2 hna
    have h2 : allowsKey pol (step pol l op).1 K rest = false :=
      ih (step pol l op).1 (step_preserves_deferred pol l K op hd hop) hnp2
    rw [allowsKey, h1, h2]
    rfl

/-- C2: when `evaluate_extended` is called with the buffer absent, any
verdict it returns is `Allow` or `Defer`, never `Deny` (spec.md
section 4.2 case 3). -/
theorem extended_no_buffer_never_deny (pol : PlatformPolicy) (l : Ledger)
    (dp : Option DevicePath) (bp : BootPolicy) (v : TrustVerdict) (l2 : Ledger)
    (h : evaluate_extended pol l dp none bp = Except.ok (v, l2)) :
    v = TrustVerdict.Allow ∨ v = TrustVerdict.Defer := by
  cases dp with
  | none => simp [evaluate_extended, extendedKey] at h
  | some d =>
    have h2 : gateCore l (LedgerKey.device d) GateTag.extended (some bp)
        (extendedFresh pol (some d) none) = (v, l2) := by
      simp only [evaluate_extended, extendedKey, Except.ok.injEq] at h
      exact h
    have hv : (gateCore l (LedgerKey.device d) GateTag.extended (some bp)
        (extendedFresh pol (some d) none)).1 = v := by rw [h2]
    rcases gateCore_fst l (LedgerKey.device d) GateTag.extended (some bp)
        (extendedFresh pol (some d) none) with hf | hf
    · rcases extendedFresh_no_buffer pol (some d) with ha | ha
      · exact Or.inl (by rw [← hv, hf, ha])
      · exact Or.inr (by rw [← hv, hf, ha])
    · exact Or.inr (by rw [← hv, hf])

/-- C3: `evaluate_legacy` with an absent device path always fails with
`InvalidInput`; with a present device path it never errors and returns one
of the three verdicts (spec.md sections 4.1 and 8). -/
theorem legacy_contract (pol : PlatformPolicy) (l : Ledger)
    (auth : AuthenticationStatus) :
    evaluate_legacy pol l none auth = Except.error GateError.invalidInput
    ∧ ∀ dp, ∃ v l2,
        evaluate_legacy pol l (some dp) auth = Except.ok (v, l2)
        ∧ (v = TrustVerdict.Allow ∨ v = TrustVerdict.Deny ∨ v = TrustVerdict.Defer) :=
  ⟨rfl, fun _ => ⟨_, _, rfl, trustVerdict_cases _⟩⟩

/-- C4: `evaluate_extended` with both device path and buffer absent fails
with `InvalidInput` for every boot-policy value (spec.md section 4.2
case 4). -/
theorem extended_both_absent_invalid (pol : PlatformPolicy) (l : Ledger)
    (bp : BootPolicy) :
    evaluate_extended pol l none none bp = Except.error GateError.invalidInput := rfl

/-- C5: whenever `evaluate_extended` returns `Defer` with a buffer present,
the resulting ledger holds the image under its key marked deferred and
tagged with the extended gate — a tag distinct from the legacy gate's SOR
tag (spec.md section 4.2, side effect). -/
theorem extended_defer_with_buffer_recorded (pol : PlatformPolicy) (l : Ledger)
    (dp : Option DevicePath) (b : ImageBuffer) (bp : BootPolicy) (l2 : Ledger)
    (h : evaluate_extended pol l dp (some b) bp
        = Except.ok (TrustVerdict.Defer, l2)) :
    ∃ k, extendedKey dp (some b) = some k
      ∧ query l2 k = some ⟨k, true, GateTag.extended, some bp⟩
      ∧ GateTag.extended ≠ GateTag.legacy := by
  cases dp with
  | some d =>
    have h2 : gateCore l (LedgerKey.device d) GateTag.extended (some bp)
        (extendedFresh pol (some d) (some b)) = (TrustVerdict.Defer, l2) := by
      simp only [evaluate_extended, extendedKey, Except.ok.injEq] at h
      exact h
    have hfst : (gateCore l (LedgerKey.device d) GateTag.extended (some bp)
        (extendedFresh pol (some d) (some b))).1 = TrustVerdict.Defer := by rw [h2]
    have hq := gateCore_defer_query l (LedgerKey.device d) GateTag.extended
      (some bp) (extendedFresh pol (some d) (some b)) hfst
    rw [h2] at hq
    exact ⟨LedgerKey.device d, rfl, by simpa using hq, by simp⟩
  | none =>
    have h2 : gateCore l (LedgerKey.content b.bytes) GateTag.extended (some bp)
        (extendedFresh pol none (some b)) = (TrustVerdict.Defer, l2) := by
      simp only [evaluate_extended, extendedKey, Except.ok.injEq] at h
      exact h
    have hfst : (gateCore l (LedgerKey.content b.bytes) GateTag.extended (some bp)
        (extendedFresh pol none (some b))).1 = TrustVerdict.Defer := by rw [h2]
    have hq := gateCore_defer_query l (LedgerKey.content b.bytes) GateTag.extended
      (some bp) (extendedFresh pol none (some b)) hfst
    rw [h2] at hq
    exact ⟨LedgerKey.content b.bytes, rfl, by simpa using hq, by simp⟩

/-- C6: running the same gate call twice with no intervening promotion
yields the same outcome both times, and a ledger that held at most one
entry per key still holds at most one entry per key after both calls
(spec.md sections 4.1, 4.3 and 8, idempotence). -/
theorem gate_idempotent (pol : PlatformPolicy) (l : Ledger) (op : Op)
    (hop : op.isEval = true) :
    (step pol (step pol l op).1 op).2 = (step pol l op).2
    ∧ ∀ K, countKey l K ≤ 1 → countKey (step pol (step pol l op).1 op).1 K ≤ 1 := by
  cases op with
  | promoteOp k => simp [Op.isEval] at hop
  | evalLegacy dp auth =>
    cases dp with
    | none =>
      refine ⟨?_, fun K h => ?_⟩
      · simp [step_evalLegacy_none]
      · simpa [step_evalLegacy_none] using h
    | some dp =>
      refine ⟨?_, fun K h => ?_⟩
      · simp only [step_evalLegacy_some]
        exact congrArg Outcome.verdict (gateCore_idem_fst l _ _ _ _)
      · simp only [step_evalLegacy_some]
        exact countKey_gateCore _ _ _ _ _ K (countKey_gateCore _ _ _ _ _ K h)
  | evalExtended dp buf bp =>
    cases hk : extendedKey dp buf with
    | none =>
      have e1 := step_evalExtended_none pol l dp buf bp hk
      refine ⟨?_, fun K h => ?_⟩
      · rw [e1]
        rw [step_evalExtended_none pol l dp buf bp hk]
      · rw [e1]
        simpa [step_evalExtended_none pol l dp buf bp hk] using h
    | some k =>
      have e1 := step_evalExtended_some pol l dp buf bp k hk
      have e2 := step_evalExtended_some pol
        (gateCore l k GateTag.extended (some bp) (extendedFresh pol dp buf)).2
        dp buf bp k hk
      refine ⟨?_, fun K h => ?_⟩
      · rw [e1]
        simp only [e2]
        exact congrArg Outcome.verdict (gateCore_idem_fst l _ _ _ _)
      · rw [e1]
        simp only [e2]
        exact countKey_gateCore _ _ _ _ _ K (countKey_gateCore _ _ _ _ _ K h)

/-- C7: `promote` fails with `NotFound` exactly when the key was never
recorded in the Ledger; on a recorded key it succeeds and clears the
deferred marking (spec.md sections 4.3 and 7). -/
theorem promote_contract (l : Ledger) (k : LedgerKey) :
    (promote l k = Except.error LedgerError.notFound ↔ query l k = none)
    ∧ ∀ e, query l k = some e →
        ∃ l2, promote l k = Except.ok l2 ∧ isDeferred l2 k = false := by
  constructor
  · constructor
    · intro h
      cases hp : promoteEntry l k with
      | some l2 => simp [promote, hp] at h
      | none => exact (promoteEntry_none_iff l k).1 hp
    · intro h
      have hp : promoteEntry l k = none := (promoteEntry_none_iff l k).2 h
      simp [promote, hp]
  · intro e he
    cases hp : promoteEntry l k with
    | none =>
      have hq := (promoteEntry_none_iff l k).1 hp
      rw [he] at hq
      cases hq
    | some l2 =>
      refine ⟨l2, by simp [promote, hp], ?_⟩
      rcases query_promoteEntry l l2 k hp with ⟨e2, _, hq2⟩
      unfold isDeferred
      rw [hq2]

/-- C8: the verdict of `evaluate_extended` does not depend on the
boot-policy flag; the flag is recorded only as ledger context for the
measurement collaborator (spec.md section 3, BootPolicy). -/
theorem boot_policy_noninterference (pol : PlatformPolicy) (l : Ledger)
    (dp : Option DevicePath) (buf : Option ImageBuffer) (bp bp2 : BootPolicy) :
    verdictOf (evaluate_extended pol l dp buf bp)
      = verdictOf (evaluate_extended pol l dp buf bp2) := by
  cases hk : extendedKey dp buf with
  | none => simp [evaluate_extended, hk, verdictOf]
  | some k =>
    have hfst := gateCore_fst_bp l k GateTag.extended (some bp) (some bp2)
      (extendedFresh pol dp buf)
    simp only [evaluate_extended, hk]
    cases hg1 : gateCore l k GateTag.extended (some bp) (extendedFresh pol dp buf) with
    | mk v1 m1 =>
      cases hg2 : gateCore l k GateTag.extended (some bp2) (extendedFresh pol dp buf) with
      | mk v2 m2 =>
        rw [hg1, hg2] at hfst
        simpa [verdictOf] using hfst

/-- C9: the legacy and extended gates encode verdicts with the same three
EFI status codes — `Allow` as `Success`, `Deny` as `AccessDenied`, `Defer`
as `SecurityViolation` — and the malformed-call code `InvalidParameter` is
distinct from all three (`security.rs` lines 88-98, `security2.rs`
lines 48-65). -/
theorem status_encoding_uniform :
    (∀ r, legacy_status_encoding r = extended_status_encoding r)
    ∧ legacy_status_encoding (Except.ok TrustVerdict.Allow) = EFI_SUCCESS
    ∧ legacy_status_encoding (Except.ok TrustVerdict.Deny) = EFI_ACCESS_DENIED
    ∧ legacy_status_encoding (Except.ok TrustVerdict.Defer) = EFI_SECURITY_VIOLATION
    ∧ legacy_status_encoding (Except.error GateError.invalidInput)
        = EFI_INVALID_PARAMETER
    ∧ EFI_SUCCESS ≠ EFI_ACCESS_DENIED
    ∧ EFI_SUCCESS ≠ EFI_SECURITY_VIOLATION
    ∧ EFI_SUCCESS ≠ EFI_INVALID_PARAMETER
    ∧ EFI_ACCESS_DENIED ≠ EFI_SECURITY_VIOLATION
    ∧ EFI_ACCESS_DENIED ≠ EFI_INVALID_PARAMETER
    ∧ EFI_SECURITY_VIOLATION ≠ EFI_INVALID_PARAMETER := by
  refine ⟨fun r => ?_, rfl, rfl, rfl, rfl, by decide, by decide, by decide,
    by decide, by decide, by decide⟩
  cases r with
  | ok v => cases v <;> rfl
  | error e => cases e; rfl

/-- C10: the extended gate's documented status table maps three pairwise
distinct conditions — failed authentication with a buffer (image added to
the file execution table), a NULL buffer without start permission, and a
non-NULL buffer without load permission (image added to the deferred image
list) — to the single code `SecurityViolation`, while their bookkeeping
effects differ, so the status alone determines neither the condition nor
the list the image joined (`security2.rs` lines 50-65). -/
theorem security_violation_overloaded :
    security2_documented_status Security2Condition.authFailedUntrusted
      = EFI_SECURITY_VIOLATION
    ∧ security2_documented_status Security2Condition.nullBufferNoStartPermission
      = EFI_SECURITY_VIOLATION
    ∧ security2_documented_status Security2Condition.bufferNoLoadPermission
      = EFI_SECURITY_VIOLATION
    ∧ Security2Condition.authFailedUntrusted
        ≠ Security2Condition.nullBufferNoStartPermission
    ∧ Security2Condition.authFailedUntrusted
        ≠ Security2Condition.bufferNoLoadPermission
    ∧ Security2Condition.nullBufferNoStartPermission
        ≠ Security2Condition.bufferNoLoadPermission
    ∧ security2_documented_bookkeeping Security2Condition.authFailedUntrusted
        ≠ security2_documented_bookkeeping Security2Condition.bufferNoLoadPermission
    ∧ security2_documented_bookkeeping Security2Condition.authFailedUntrusted
        ≠ security2_documented_bookkeeping
            Security2Condition.nullBufferNoStartPermission
    ∧ security2_documented_bookkeeping Security2Condition.bufferNoLoadPermission
        ≠ security2_documented_bookkeeping
            Security2Condition.nullBufferNoStartPermission := by
  decide

/-! ## Witnesses at concrete inputs -/

/-- Witness for C1: a deferred device path stays non-`Allow` across a
concrete promotion-free trace. -/
theorem deferred_never_allowed_without_promotion_witness :
    isDeferred [⟨LedgerKey.device 5, true, GateTag.legacy, none⟩]
        (LedgerKey.device 5) = true
    ∧ Op.promoteOp (LedgerKey.device 5)
        ∉ [Op.evalLegacy (some 5) 0, Op.evalExtended (some 5) none true]
    ∧ allowsKey samplePolicy [⟨LedgerKey.device 5, true, GateTag.legacy, none⟩]
        (LedgerKey.device 5)
        [Op.evalLegacy (some 5) 0, Op.evalExtended (some 5) none true] = false :=
  ⟨by decide, by decide,
    deferred_never_allowed_without_promotion samplePolicy
      [⟨LedgerKey.device 5, true, GateTag.legacy, none⟩] (LedgerKey.device 5)
      [Op.evalLegacy (some 5) 0, Op.evalExtended (some 5) none true]
      (by decide) (by decide)⟩

/-- Witness for C2: a concrete buffer-absent call returning `Allow`. -/
theorem extended_no_buffer_never_deny_witness :
    evaluate_extended samplePolicy [] (some 2) none false
      = Except.ok (TrustVerdict.Allow, [])
    ∧ (TrustVerdict.Allow = TrustVerdict.Allow
       ∨ TrustVerdict.Allow = TrustVerdict.Defer) :=
  ⟨by rfl, extended_no_buffer_never_deny samplePolicy [] (some 2) false
    TrustVerdict.Allow [] (by rfl)⟩

/-- Witness for C5: a concrete deferred image lands in the
extended-tagged ledger entry. -/
theorem extended_defer_with_buffer_recorded_witness :
    evaluate_extended samplePolicy [] (some 7) (some ⟨[]⟩) false
      = Except.ok (TrustVerdict.Defer,
          [⟨LedgerKey.device 7, true, GateTag.extended, some false⟩])
    ∧ ∃ k, extendedKey (some 7) (some ⟨[]⟩) = some k
        ∧ query [⟨LedgerKey.device 7, true, GateTag.extended, some false⟩] k
            = some ⟨k, true, GateTag.extended, some false⟩
        ∧ GateTag.extended ≠ GateTag.legacy :=
  ⟨by rfl, extended_defer_with_buffer_recorded samplePolicy [] (some 7) ⟨[]⟩ false
    [⟨LedgerKey.device 7, true, GateTag.extended, some false⟩] (by rfl)⟩

/-- Witness for C6: a concrete repeated legacy call with a deferring
status. -/
theorem gate_idempotent_witness :
    (Op.evalLegacy (some 9) 2).isEval = true
    ∧ (step samplePolicy (step samplePolicy [] (Op.evalLegacy (some 9) 2)).1
          (Op.evalLegacy (some 9) 2)).2
        = (step samplePolicy [] (Op.evalLegacy (some 9) 2)).2
    ∧ countKey ([] : Ledger) (LedgerKey.device 9) ≤ 1
    ∧ countKey (step samplePolicy (step samplePolicy []
          (Op.evalLegacy (some 9) 2)).1 (Op.evalLegacy (some 9) 2)).1
        (LedgerKey.device 9) ≤ 1 :=
  ⟨rfl, (gate_idempotent samplePolicy [] (Op.evalLegacy (some 9) 2) rfl).1,
    by decide,
    (gate_idempotent samplePolicy [] (Op.evalLegacy (some 9) 2) rfl).2
      (LedgerKey.device 9) (by decide)⟩

/-- Witness for C7: promoting a concretely recorded key succeeds and
clears the deferred marking. -/
theorem promote_contract_witness :
    query [⟨LedgerKey.device 5, true, GateTag.legacy, none⟩] (LedgerKey.device 5)
      = some ⟨LedgerKey.device 5, true, GateTag.legacy, none⟩
    ∧ ∃ l2, promote [⟨LedgerKey.device 5, true, GateTag.legacy, none⟩]
          (LedgerKey.device 5) = Except.ok l2
        ∧ isDeferred l2 (LedgerKey.device 5) = false :=
  ⟨by rfl, (promote_contract [⟨LedgerKey.device 5, true, GateTag.legacy, none⟩]
      (LedgerKey.device 5)).2
    ⟨LedgerKey.device 5, true, GateTag.legacy, none⟩ (by rfl)⟩

end Security
